import Mathlib

/-!
Verification of the taudac/tools build orchestrator (build-modules.py).

The development shallowly embeds the version-resolution and build-orchestration
core of build-modules.py: the packaging.version comparison used at lines 178
and 196, the two commit-message patterns (lines 162 and 175), GitHubRepo.log
(lines 54-76) and the backward walk (lines 42-52), the pending-version loop
(lines 173-184), sorting and truncation (lines 196-198), query_yes_no
(lines 103-118), the call helper (lines 121-127) and the per-version pipeline
(lines 201-248), assembled into a model of main (lines 148-249) that records
the external effects the run performs.
-/

namespace BuildModules

/-- Python message.split at newline, element 0: the first line of a commit
message (build-modules.py line 75). -/
def firstLine (s : String) : String :=
  String.mk (s.data.takeWhile (fun c => c != '\n'))

/-- Python slice s[0:n], used as sha[0:8] at line 75. -/
def pyTake (n : Nat) (s : String) : String :=
  String.mk (s.data.take n)

/-! ## packaging.version model

version.parse is called on strings captured by the regex group [\d\.]+, so the
domain is nonempty strings of digits and dots.  On that domain packaging
accepts exactly nonempty digit runs separated by single dots (anything else
raises InvalidVersion, modelled as none) and compares two parsed versions by
their release tuples after discarding trailing zero components, exactly as
packaging._cmpkey does. -/

/-- Split a character list at every dot, keeping empty chunks. -/
def verChunks : List Char → List (List Char)
  | [] => [[]]
  | '.' :: rest => [] :: verChunks rest
  | c :: rest =>
    match verChunks rest with
    | h :: t => (c :: h) :: t
    | [] => [[c]]

/-- A dot-separated chunk parses when it is a nonempty run of digits. -/
def chunkToNat : List Char → Option Nat
  | [] => none
  | c :: cs =>
    if (c :: cs).all Char.isDigit then
      some ((c :: cs).foldl (fun n d => 10 * n + (d.toNat - 48)) 0)
    else none

/-- Model of packaging version.parse restricted to digits-and-dots inputs:
the numeric release components, or none when packaging raises. -/
def parseVersion (s : String) : Option (List Nat) :=
  (verChunks s.data).mapM chunkToNat

/-- packaging drops trailing zero release components before comparing. -/
def rstripZeros (l : List Nat) : List Nat :=
  (l.reverse.dropWhile (fun n => n == 0)).reverse

/-- Python tuple comparison, less-or-equal, on the stripped release keys. -/
def tupleLe : List Nat → List Nat → Bool
  | [], _ => true
  | _ :: _, [] => false
  | a :: as, b :: bs => if a < b then true else if b < a then false else tupleLe as bs

/-- Python tuple comparison, strictly-less, on the stripped release keys. -/
def tupleLt : List Nat → List Nat → Bool
  | [], [] => false
  | [], _ :: _ => true
  | _ :: _, [] => false
  | a :: as, b :: bs => if a < b then true else if b < a then false else tupleLt as bs

/-- version.parse a less-or-equal version.parse b (line 178 comparison). -/
def verLe (a b : List Nat) : Bool :=
  tupleLe (rstripZeros a) (rstripZeros b)

/-- Strict numeric version order (sort key order at line 196). -/
def verLt (a b : List Nat) : Bool :=
  tupleLt (rstripZeros a) (rstripZeros b)

/-- Numeric version equality. -/
def verEq (a b : List Nat) : Bool :=
  verLe a b && verLe b a

/-! ## The two commit-message patterns -/

/-- Characters matched by the regex class [\d\.]. -/
def isVerChar (c : Char) : Bool := c.isDigit || c == '.'

/-- After the bump verb the pattern requires a space, the literal to, a space,
and a greedy nonempty run of digits and dots (the captured group). -/
def bumpTail : List Char → Option String
  | ' ' :: 't' :: 'o' :: ' ' :: rest =>
    match rest.takeWhile isVerChar with
    | [] => none
    | c :: cs => some (String.mk (c :: cs))
  | _ => none

/-- The alternation ([Bb]ump|[Uu]pdate) followed by the tail. -/
def bumpVerb : List Char → Option String
  | 'B' :: 'u' :: 'm' :: 'p' :: rest => bumpTail rest
  | 'b' :: 'u' :: 'm' :: 'p' :: rest => bumpTail rest
  | 'U' :: 'p' :: 'd' :: 'a' :: 't' :: 'e' :: rest => bumpTail rest
  | 'u' :: 'p' :: 'd' :: 'a' :: 't' :: 'e' :: rest => bumpTail rest
  | _ => none

/-- Model of re.match at line 175 on a first line: pattern
kernel:? ([Bb]ump|[Uu]pdate) to ([\d\.]+), returning group 2.  re.match
anchors at the start only; :? optionally consumes a colon before the
mandatory space. -/
def matchBumpMsg (msg : String) : Option String :=
  match msg.data with
  | 'k' :: 'e' :: 'r' :: 'n' :: 'e' :: 'l' :: ':' :: ' ' :: rest => bumpVerb rest
  | 'k' :: 'e' :: 'r' :: 'n' :: 'e' :: 'l' :: ' ' :: rest => bumpVerb rest
  | _ => none

/-- Rightmost occurrence of the literal space-for-space followed by a nonempty
run of digits and dots: the greedy .* in taudac-.* for ([\d\.]+) backtracks
from the right, so the last viable position wins. -/
def forVer : List Char → Option String
  | [] => none
  | c :: cs =>
    match forVer cs with
    | some v => some v
    | none =>
      match c, cs with
      | ' ', 'f' :: 'o' :: 'r' :: ' ' :: rest =>
        match rest.takeWhile isVerChar with
        | [] => none
        | d :: ds => some (String.mk (d :: ds))
      | _, _ => none

/-- Model of re.match at line 162: pattern taudac-.* for ([\d\.]+).  The dot
class does not cross a newline, so the search is confined to the first line
after the mandatory taudac- head. -/
def matchTaudacMsg (msg : String) : Option String :=
  match msg.data with
  | 't' :: 'a' :: 'u' :: 'd' :: 'a' :: 'c' :: '-' :: rest =>
    forVer (rest.takeWhile (fun c => c != '\n'))
  | _ => none

/-! ## GitHubRepo.log (lines 54-76) -/

/-- A raw commit object as the commit-listing endpoint returns it: a full sha
and a possibly multi-line message. -/
structure RawCommit where
  sha : String
  message : String
deriving DecidableEq

/-- One HTTP exchange with the commit-listing endpoint, as seen by log. -/
inductive ApiResponse where
  | ok (commits : List RawCommit)
  | httpError (code : Nat)
  | urlError (msg : String)
deriving DecidableEq

/-- A (shortHash, messageFirstLine) pair: what log yields per commit. -/
abbrev Entry := String × String

/-- What one commit becomes in the list log returns (line 75). -/
def logEntryOf (c : RawCommit) : Entry :=
  (pyTake 8 c.sha, firstLine c.message)

/-- How one call to GitHubRepo.log ends.  exitProcess models sys.exit(1) at
line 67, reached for every HTTPError; the rate-limit guidance of lines 64-66
is printed only when the code is 403.  raiseToCaller models the re-raise of a
non-HTTP URLError at line 70, which no caller catches, so the process dies
with a traceback. -/
inductive LogResult where
  | messages (entries : List Entry)
  | exitProcess (rateLimitGuidance : Bool)
  | raiseToCaller (msg : String)
deriving DecidableEq

/-- GitHubRepo.log as a function of the endpoint response. -/
def ghLog (resp : ApiResponse) : LogResult :=
  match resp with
  | .ok commits => .messages (commits.map logEntryOf)
  | .httpError code => .exitProcess (code == 403)
  | .urlError m => .raiseToCaller m

/-- Whether a log outcome hands data back to the caller at all; the claims
distinguish propagation (an exception the caller sees) from process
termination inside log. -/
def propagatesToCaller : LogResult → Bool
  | .raiseToCaller _ => true
  | _ => false

/-! ## The backward walk and the pending-version loop (lines 42-52, 173-184)

GitHubRepo.__iter__ fetches one commit per step via log(max_count=1,
revision=HEAD~n).  A feed is modelled as the sequence of per-step results:
either a commit, or the HTTPError / URLError that the step produced.  The
walk can only end through the break at line 179 or through a failing fetch:
log never returns None, so the StopIteration branch at line 52 is dead, and
once the modelled history is exhausted the next request past the root commit
yields an HTTP error page (sys.exit(1) at line 67) or an empty commit array
(IndexError on ret[0] at line 50) - in either case the process dies. -/

/-- One step of the upstream walk. -/
inductive Fetch where
  | commit (c : RawCommit)
  | httpError (code : Nat)
  | urlError (msg : String)
deriving DecidableEq

/-- Outcome of the pending-detection loop over the upstream feed. -/
inductive ResolveOutcome where
  | stopped (pending : List Entry)
  | fetchExit (rateLimitGuidance : Bool)
  | fetchRaised (msg : String)
  | exhausted (pending : List Entry)
  | parseCrash
deriving DecidableEq

/-- The loop at lines 174-184.  Each iterated element is the pair
(sha[0:8], first message line); the version comparison parses the captured
group and the baseline with version.parse (crashing on malformed input), the
duplicate test is string membership in the pending snapshot, and a new entry
is appended at the end. -/
def resolveGo (ckver : String) : List Fetch → List Entry → ResolveOutcome
  | [], pending => .exhausted pending
  | .httpError code :: _, _ => .fetchExit (code == 403)
  | .urlError m :: _, _ => .fetchRaised m
  | .commit c :: rest, pending =>
    match matchBumpMsg (firstLine c.message) with
    | none => resolveGo ckver rest pending
    | some nkver =>
      match parseVersion nkver, parseVersion ckver with
      | some nv, some cv =>
        if verLe nv cv then .stopped pending
        else if nkver ∈ pending.map Prod.snd then resolveGo ckver rest pending
        else resolveGo ckver rest (pending ++ [(pyTake 8 c.sha, nkver)])
      | _, _ => .parseCrash

/-- Pending detection starting from an empty list (line 173). -/
def resolvePending (ckver : String) (feed : List Fetch) : ResolveOutcome :=
  resolveGo ckver feed []

/-! ## Sorting and truncation (lines 196-198) -/

/-- The sort key at line 196: version.parse of the entry version string. -/
def pendingKey (e : Entry) : List Nat :=
  (parseVersion e.2).getD []

/-- Key order used by sorted at line 196. -/
def pendingLe (a b : Entry) : Prop :=
  verLe (pendingKey a) (pendingKey b) = true

instance : DecidableRel pendingLe :=
  fun a b => inferInstanceAs (Decidable (verLe (pendingKey a) (pendingKey b) = true))

/-- sorted(pending, key=lambda x: version.parse(x[1])): Python sorted is the
unique stable sort for the key order, so a stable insertion sort by the same
total preorder produces the identical list; the key call raises on a
malformed version string (none). -/
def sortPending (pending : List Entry) : Option (List Entry) :=
  if pending.all (fun e => (parseVersion e.2).isSome) then
    some (List.insertionSort pendingLe pending)
  else none

/-- Python slice xs[:n] for an int n (line 198). -/
def pySliceTo (n : Int) (xs : List Entry) : List Entry :=
  if 0 ≤ n then xs.take n.toNat else xs.take (xs.length - (-n).toNat)

/-- Lines 197-198: if args.max_versions: pending = pending[:args.max_versions].
A missing cap and, by Python truthiness, a cap of 0 both leave the list
untouched. -/
def truncatePending (maxVersions : Option Int) (xs : List Entry) : List Entry :=
  match maxVersions with
  | none => xs
  | some n => if n = 0 then xs else pySliceTo n xs

/-- The resolution result as the orchestrator loop receives it before
truncation: the walked pending list, sorted ascending by parsed version. -/
def resolveSorted (ckver : String) (feed : List Fetch) : Option (List Entry) :=
  match resolvePending ckver feed with
  | .stopped pending => sortPending pending
  | _ => none

/-- Resolution, sort, then the optional cap of lines 197-198. -/
def resolveSortTrunc (ckver : String) (feed : List Fetch) (maxVersions : Option Int) :
    Option (List Entry) :=
  (resolveSorted ckver feed).map (truncatePending maxVersions)

/-! ## query_yes_no (lines 103-118) -/

/-- Charwise str.lower, enough for the console answers compared here. -/
def lowerStr (s : String) : String :=
  String.mk (s.data.map Char.toLower)

/-- The prompt loop of lines 111-118 over the remaining stdin lines: an answer
in the yes set or the no set ends the loop and the rest of stdin is kept for
later prompts; other lines re-prompt; exhausted input models input() raising
EOFError, which nothing catches. -/
def qynLoop : List String → Option (Bool × List String)
  | [] => none
  | s :: rest =>
    let c := lowerStr s
    if c == "yes" || c == "y" || c == "" then some (true, rest)
    else if c == "no" || c == "n" then some (false, rest)
    else qynLoop rest

/-- query_yes_no: with --assume-yes it returns True without reading stdin
(lines 104-105), otherwise it runs the prompt loop. -/
def queryYesNo (assumeYes : Bool) (inputs : List String) : Option (Bool × List String) :=
  if assumeYes then some (true, inputs) else qynLoop inputs

/-! ## The call helper (lines 121-127) and the external effects of a run -/

/-- An observable external action of the orchestrator. -/
inductive Effect where
  | run (cmd : List String) (redirect : Option String)
  | rmtreeLib
  | unameQuery
  | notifyDone (kver : String)
deriving DecidableEq

/-- call(cmd): when a log file is configured the command is first executed
with stdout and stderr redirected to it (line 126) and then executed again
without redirection (line 127); without a log file it runs once.  Every call
site in main passes a list, so the shlex branch at line 123 is inert. -/
def callEffects (logFile : Option String) (cmd : List String) : List Effect :=
  match logFile with
  | some f => [.run cmd (some f), .run cmd none]
  | none => [.run cmd none]

/-! ## Configuration (argparse namespace, lines 265-316) -/

/-- The argparse-derived settings main reads.  directory and workingDirectory
default to /tmp, so the None tests at lines 204 and 206 only see None when the
model supplies it. -/
structure Config where
  assumeYes : Bool := false
  directory : Option String := some "/tmp"
  workingDirectory : Option String := some "/tmp"
  logFile : Option String := none
  maxVersions : Option Int := none
  currentVersion : Option String := none
  extraMakeArgs : List String := []
  doNotTag : Bool := false

/-! ## The per-version pipeline (lines 201-248) -/

/-- git -C ../modules/ (line 151). -/
def gitCmd : List String := ["git", "-C", "../modules/"]

/-- Lines 203-207: the source-fetch command with -w inserted at index 1 last,
hence before -d. -/
def gksArgs (dir wdir : Option String) (sha : String) : List String :=
  "./get-rpi-kernel-sources.sh" ::
    ((match wdir with | some w => ["-w" ++ w] | none => []) ++
     (match dir with | some d => ["-d" ++ d] | none => []) ++ [sha])

def raspi32Suffixes : List String := ["", "-v7", "-v7l"]

def raspi64Suffixes : List String := ["-v8", "-v8-16k"]

def raspiSuffixes : List String := raspi32Suffixes ++ raspi64Suffixes

/-- re.match against arm(v[6-7](l|hf))$ accepts exactly these machines. -/
def isRaspi32 (machine : String) : Bool :=
  machine == "armv6l" || machine == "armv6hf" || machine == "armv7l" || machine == "armv7hf"

/-- re.match against aarch64$ on the stripped uname output. -/
def isRaspi64 (machine : String) : Bool :=
  machine == "aarch64"

def crossCompileArgs32 : List String := ["ARCH=arm", "CROSS_COMPILE=arm-linux-gnueabihf-"]

def crossCompileArgs64 : List String := ["ARCH=arm64", "CROSS_COMPILE=aarch64-linux-gnu-"]

/-- Lines 217-224: the cross-compile overrides chosen for one target suffix. -/
def crossArgsFor (machine pver : String) : List String :=
  if pver ∈ raspi32Suffixes then
    if isRaspi32 machine then [] else crossCompileArgs32
  else if pver ∈ raspi64Suffixes then
    if isRaspi64 machine then [] else crossCompileArgs64
  else []

/-- Python str(x) for the f-string prefix interpolation at line 230: an absent
directory renders as the string None. -/
def pyStrOpt : Option String → String
  | some s => s
  | none => "None"

/-- The make invocation of lines 226-230 for one target suffix. -/
def makeArgs (cfg : Config) (machine kver pver : String) : List String :=
  ["make", "--no-print-directory", "--always-make",
   "-C", "../taudac-driver-dkms/src/", "INSTALL_TO_ORIGDIR=1"]
  ++ crossArgsFor machine pver ++ cfg.extraMakeArgs
  ++ ["kernelver=" ++ kver ++ pver ++ "+", "prefix=" ++ pyStrOpt cfg.directory, "release"]

/-- Line 236: the marker-file content with str.lstrip removing every leading
hash and str.rstrip removing trailing whitespace.  The relevant whitespace
characters for ASCII content are modelled explicitly. -/
def pyWhitespace (c : Char) : Bool :=
  c == ' ' || c == '\t' || c == '\n' || c == '\x0d' || c == '\x0b' || c == '\x0c'

/-- msg = f.read().lstrip(hash).rstrip() at line 236. -/
def stripTagContent (s : String) : String :=
  String.mk (((s.data.dropWhile (fun c => c == '#')).reverse.dropWhile pyWhitespace).reverse)

/-- The effects of lines 202-243 for one pending (sha, kver): source fetch,
artifact clean, uname query, the five make targets, git add, the commit whose
message comes from the marker file, the optional tag, and the outgoing-commit
display that precedes the publish prompt. -/
def pipelineSteps (cfg : Config) (machine marker sha kver : String) : List Effect :=
  callEffects cfg.logFile (gksArgs cfg.directory cfg.workingDirectory sha)
  ++ [.rmtreeLib, .unameQuery]
  ++ (raspiSuffixes.map (fun pver => callEffects cfg.logFile (makeArgs cfg machine kver pver))).flatten
  ++ callEffects cfg.logFile (gitCmd ++ ["add", "lib/"])
  ++ callEffects cfg.logFile (gitCmd ++ ["commit", "-am", stripTagContent marker])
  ++ (if cfg.doNotTag then [] else
      callEffects cfg.logFile (gitCmd ++ ["tag", "--force",
        "rpi-volumio-" ++ kver ++ "-taudac-modules"]))
  ++ callEffects cfg.logFile (gitCmd ++ ["log", "--oneline", "--decorate=on", "origin/master.."])

/-- The loop of lines 201-248 over the truncated pending list, threading the
remaining stdin lines through each publish prompt; none marks a run killed by
an exhausted stdin.  Every subprocess is assumed to succeed, which is the only
path on which the loop continues. -/
def runPipelines (cfg : Config) (machine marker : String) :
    List Entry → List String → List Effect × Option (List String)
  | [], inputs => ([], some inputs)
  | (sha, kver) :: rest, inputs =>
    let pre := pipelineSteps cfg machine marker sha kver
    match queryYesNo cfg.assumeYes inputs with
    | none => (pre, none)
    | some (pub, inputs') =>
      let effs := pre
        ++ (if pub then
              callEffects cfg.logFile (gitCmd ++ ["push"])
              ++ callEffects cfg.logFile (gitCmd ++ ["push", "--tags"])
            else [])
        ++ [.notifyDone kver]
      let next := runPipelines cfg machine marker rest inputs'
      (effs ++ next.1, next.2)

/-! ## main (lines 148-249) -/

/-- How one invocation of main ends.  The clean returns are noBaseline
(lines 167-168), upToDate (lines 186-188), declined (lines 190-191) and
finished: in each of these main returns and the process exits 0.  The other
constructors end the process abnormally: taudacFetchExit and walkFetchExit
are sys.exit(1) inside log, taudacFetchRaised and walkRaised are the re-raised
URLError, promptEOF is the uncaught EOFError from input(), walkDied is the
walk running past the modelled history (the next fetch meets an error page or
an empty commit array - sys.exit(1) or IndexError), and versionCrash is the
InvalidVersion raised by version.parse. -/
inductive MainResult where
  | taudacFetchExit (rateLimitGuidance : Bool)
  | taudacFetchRaised (msg : String)
  | noBaseline
  | upToDate
  | declined
  | promptEOF
  | walkFetchExit (rateLimitGuidance : Bool)
  | walkRaised (msg : String)
  | walkDied
  | versionCrash
  | finished (built : List Entry)
deriving DecidableEq

/-- Process exit status for each ending: main has no failure-handling of its
own for these paths, and the try block at lines 318-325 only catches
subprocess errors, so a return from main exits 0 and everything else exits
non-zero. -/
def exitsCleanly : MainResult → Bool
  | .noBaseline => true
  | .upToDate => true
  | .declined => true
  | .finished _ => true
  | _ => false

/-- Lines 153-168: the baseline version, either the operator override or the
first match of the taudac pattern over the page of downstream commits
fetched with per_page=2 (newest first).  The is-None test at line 158 is dead
because log never returns None. -/
def findBaseline : List Entry → Option String
  | [] => none
  | e :: rest =>
    match matchTaudacMsg e.2 with
    | some v => some v
    | none => findBaseline rest

/-- The baseline phase of main: either a baseline string or the way the run
ended while looking for one. -/
def baselinePhase (cfg : Config) (downstream : ApiResponse) : Sum String MainResult :=
  match cfg.currentVersion with
  | some v => .inl v
  | none =>
    match ghLog downstream with
    | .messages entries =>
      match findBaseline entries with
      | some v => .inl v
      | none => .inr .noBaseline
    | .exitProcess g => .inr (.taudacFetchExit g)
    | .raiseToCaller m => .inr (.taudacFetchRaised m)

/-- main, as a function of the configuration, the downstream log page, the
upstream per-step fetch results, the stdin lines and the build host state,
returning how the run ends together with every external effect it performed
from the fast-forward pull onward. -/
def mainRun (cfg : Config) (downstream : ApiResponse) (upstream : List Fetch)
    (inputs : List String) (machine marker : String) : MainResult × List Effect :=
  match baselinePhase cfg downstream with
  | .inr r => (r, [])
  | .inl ckver =>
    match resolvePending ckver upstream with
    | .fetchExit g => (.walkFetchExit g, [])
    | .fetchRaised m => (.walkRaised m, [])
    | .parseCrash => (.versionCrash, [])
    | .exhausted _ => (.walkDied, [])
    | .stopped pending =>
      if pending.isEmpty then (.upToDate, [])
      else
        match queryYesNo cfg.assumeYes inputs with
        | none => (.promptEOF, [])
        | some (false, _) => (.declined, [])
        | some (true, inputs') =>
          let pullEffs := callEffects cfg.logFile (gitCmd ++ ["pull", "--ff-only"])
          match sortPending pending with
          | none => (.versionCrash, pullEffs)
          | some sortedPending =>
            let todo := truncatePending cfg.maxVersions sortedPending
            match runPipelines cfg machine marker todo inputs' with
            | (effs, some _) => (.finished todo, pullEffs ++ effs)
            | (effs, none) => (.promptEOF, pullEffs ++ effs)

/-! ## Order properties of the version comparison -/

theorem tupleLe_total : ∀ a b : List Nat, tupleLe a b = true ∨ tupleLe b a = true
  | [], _ => Or.inl rfl
  | _ :: _, [] => Or.inr rfl
  | a :: as, b :: bs => by
    simp only [tupleLe]
    rcases Nat.lt_trichotomy a b with h | h | h
    · left; simp [h]
    · subst h
      simp only [Nat.lt_irrefl, if_false]
      exact tupleLe_total as bs
    · right; simp [h]

theorem tupleLe_trans :
    ∀ a b c : List Nat, tupleLe a b = true → tupleLe b c = true → tupleLe a c = true
  | [], _, _, _, _ => rfl
  | _ :: _, [], _, h, _ => by simp [tupleLe] at h
  | _ :: _, _ :: _, [], _, h => by simp [tupleLe] at h
  | a :: as, b :: bs, c :: cs, h1, h2 => by
    simp only [tupleLe] at h1 h2 ⊢
    rcases Nat.lt_trichotomy a b with hab | hab | hab
    · rcases Nat.lt_trichotomy b c with hbc | hbc | hbc
      · simp [show a < c by omega]
      · subst hbc; simp [hab]
      · simp [show ¬ b < c by omega, hbc] at h2
    · subst hab
      rcases Nat.lt_trichotomy a c with hac | hac | hac
      · simp [hac]
      · subst hac
        simp only [Nat.lt_irrefl, if_false] at h1 h2 ⊢
        exact tupleLe_trans as bs cs h1 h2
      · simp [show ¬ a < c by omega, hac] at h2
    · simp [show ¬ a < b by omega, hab] at h1

theorem verLe_total (a b : List Nat) : verLe a b = true ∨ verLe b a = true :=
  tupleLe_total _ _

theorem verLe_trans {a b c : List Nat} (h1 : verLe a b = true) (h2 : verLe b c = true) :
    verLe a c = true :=
  tupleLe_trans _ _ _ h1 h2

instance : IsTotal Entry pendingLe :=
  ⟨fun a b => verLe_total (pendingKey a) (pendingKey b)⟩

instance : IsTrans Entry pendingLe :=
  ⟨fun _ _ _ h1 h2 => verLe_trans h1 h2⟩

/-! ## The padded componentwise characterization (standard dotted-numeric
precedence): compare component by component, a missing component counting
as zero. -/

/-- Textbook dotted-numeric strict precedence: walk both component lists in
parallel, treating a missing component as 0. -/
def padLt : List Nat → List Nat → Bool
  | [], ys => !(ys.all (fun n => n == 0))
  | _ :: _, [] => false
  | x :: xs, y :: ys => if x < y then true else if y < x then false else padLt xs ys

theorem rstripZeros_eq_nil_iff {l : List Nat} :
    rstripZeros l = [] ↔ l.all (fun n => n == 0) = true := by
  simp [rstripZeros, List.dropWhile_eq_nil_iff, List.all_eq_true]

theorem rstripZeros_cons (x : Nat) (xs : List Nat) :
    rstripZeros (x :: xs) =
      if x == 0 && xs.all (fun n => n == 0) then [] else x :: rstripZeros xs := by
  have hrw : rstripZeros (x :: xs) =
      ((xs.reverse ++ [x]).dropWhile (fun n => n == 0)).reverse := by
    simp only [rstripZeros, List.reverse_cons]
  by_cases hall : xs.all (fun n => n == 0) = true
  · have hnil : xs.reverse.dropWhile (fun n => n == 0) = [] := by
      rw [List.dropWhile_eq_nil_iff]
      intro a ha
      exact (List.all_eq_true.1 hall) a (List.mem_reverse.1 ha)
    have hnil2 : rstripZeros xs = [] := rstripZeros_eq_nil_iff.2 hall
    rw [hrw, List.dropWhile_append, hnil]
    by_cases hx : x = 0
    · subst hx
      simp [hall, List.dropWhile]
    · have hxb : (x == 0) = false := by simpa using hx
      simp [List.dropWhile, hxb, hall, hnil2]
  · have hcond : (x == 0 && xs.all fun n => n == 0) = false := by
      simp [hall]
    have hne : xs.reverse.dropWhile (fun n => n == 0) ≠ [] := by
      rw [Ne, List.dropWhile_eq_nil_iff]
      intro hc
      exact hall (List.all_eq_true.2 fun a ha => hc a (List.mem_reverse.2 ha))
    rw [hrw, List.dropWhile_append]
    rcases h : xs.reverse.dropWhile (fun n => n == 0) with _ | ⟨d, ds⟩
    · exact absurd h hne
    · simp [h, hcond, rstripZeros]

theorem padLt_of_all_zero_left :
    ∀ xs ys : List Nat, xs.all (fun n => n == 0) = true →
      padLt xs ys = !(ys.all (fun n => n == 0))
  | [], _, _ => rfl
  | _ :: _, [], h => by simp [padLt]
  | x :: xs, y :: ys, h => by
    simp only [List.all_cons, Bool.and_eq_true, beq_iff_eq] at h
    obtain ⟨rfl, hxs⟩ := h
    simp only [padLt, List.all_cons]
    by_cases hy : 0 < y
    · simp [hy, Nat.ne_of_gt hy]
    · have : y = 0 := by omega
      subst this
      simp [padLt_of_all_zero_left xs ys hxs]

theorem padLt_of_all_zero_right :
    ∀ xs ys : List Nat, ys.all (fun n => n == 0) = true → padLt xs ys = false
  | [], ys, h => by simp [padLt, h]
  | _ :: _, [], _ => rfl
  | x :: xs, y :: ys, h => by
    simp only [List.all_cons, Bool.and_eq_true, beq_iff_eq] at h
    obtain ⟨rfl, hys⟩ := h
    simp only [padLt]
    by_cases hx : 0 < x
    · simp [Nat.not_lt_of_gt hx, hx]
    · have : x = 0 := by omega
      subst this
      simp [padLt_of_all_zero_right xs ys hys]

theorem tupleLt_nil_right : ∀ r : List Nat, tupleLt r [] = false
  | [] => rfl
  | _ :: _ => rfl

theorem verLt_eq_padLt : ∀ a b : List Nat, verLt a b = padLt a b
  | [], b => by
    rcases h : rstripZeros b with _ | ⟨d, ds⟩
    · have hb := rstripZeros_eq_nil_iff.1 h
      simp only [verLt]
      rw [h, show rstripZeros [] = [] from rfl]
      simp [tupleLt, padLt, hb]
    · have hb : b.all (fun n => n == 0) = false := by
        rcases hx : b.all (fun n => n == 0) with _ | _
        · rfl
        · rw [rstripZeros_eq_nil_iff.2 hx] at h
          simp at h
      simp only [verLt]
      rw [h, show rstripZeros [] = [] from rfl]
      simp [tupleLt, padLt, hb]
  | a :: as, [] => by
    simp only [verLt, padLt]
    exact tupleLt_nil_right _
  | x :: xs, y :: ys => by
    simp only [verLt, rstripZeros_cons]
    by_cases hx : (x == 0 && xs.all (fun n => n == 0)) = true <;>
      by_cases hy : (y == 0 && ys.all (fun n => n == 0)) = true
    · rw [if_pos hx, if_pos hy]
      simp only [Bool.and_eq_true, beq_iff_eq] at hx hy
      obtain ⟨rfl, hxs⟩ := hx; obtain ⟨rfl, hys⟩ := hy
      simp [tupleLt, padLt, padLt_of_all_zero_right xs ys hys]
    · rw [if_pos hx, if_neg hy]
      simp only [Bool.and_eq_true, beq_iff_eq] at hx
      obtain ⟨rfl, hxs⟩ := hx
      simp only [tupleLt, padLt]
      by_cases h0 : 0 < y
      · simp [h0]
      · have : y = 0 := by omega
        subst this
        have hys : ys.all (fun n => n == 0) = false := by
          rcases h : ys.all (fun n => n == 0) with _ | _
          · rfl
          · exact absurd (by simp [h]) hy
        simp [padLt_of_all_zero_left xs ys hxs, hys]
    · rw [if_neg hx, if_pos hy]
      simp only [Bool.and_eq_true, beq_iff_eq] at hy
      obtain ⟨rfl, hys⟩ := hy
      rw [tupleLt_nil_right]
      simp only [padLt]
      by_cases h0 : 0 < x
      · simp [Nat.not_lt_of_gt h0, h0]
      · have : x = 0 := by omega
        subst this
        simp [padLt_of_all_zero_right xs ys hys]
    · rw [if_neg hx, if_neg hy]
      simp only [tupleLt, padLt]
      rcases Nat.lt_trichotomy x y with h | h | h
      · simp [h]
      · subst h
        simp only [Nat.lt_irrefl, if_false]
        exact verLt_eq_padLt xs ys
      · simp [h, Nat.not_lt_of_gt h]

theorem tupleLe_eq_not_tupleLt : ∀ a b : List Nat, tupleLe a b = !tupleLt b a
  | [], [] => rfl
  | [], _ :: _ => rfl
  | _ :: _, [] => rfl
  | a :: as, b :: bs => by
    simp only [tupleLe, tupleLt]
    rcases Nat.lt_trichotomy a b with h | h | h
    · simp [h, Nat.not_lt_of_gt h]
    · subst h
      simp only [Nat.lt_irrefl, if_false]
      exact tupleLe_eq_not_tupleLt as bs
    · simp [h, Nat.not_lt_of_gt h]

theorem verLe_eq_not_padLt (a b : List Nat) : verLe a b = !padLt b a := by
  rw [verLe, tupleLe_eq_not_tupleLt, ← verLt, verLt_eq_padLt]

/-- Plain lexicographic order on character lists: what comparing the version
strings as strings would do. -/
def charLexLt : List Char → List Char → Bool
  | [], [] => false
  | [], _ :: _ => true
  | _ :: _, [] => false
  | a :: as, b :: bs => if a < b then true else if b < a then false else charLexLt as bs

/-! ## Resolver invariants -/

/-- The invariant the pending loop maintains: version strings are pairwise
distinct as strings, and every stored version string parses. -/
def goodAcc (l : List Entry) : Prop :=
  l.Pairwise (fun a b => a.2 ≠ b.2) ∧ ∀ e ∈ l, (parseVersion e.2).isSome = true

theorem goodAcc_nil : goodAcc [] := ⟨List.Pairwise.nil, by simp⟩

theorem goodAcc_append {acc : List Entry} {sha nk : String} {nv : List Nat}
    (hg : goodAcc acc) (hp : parseVersion nk = some nv)
    (hnotin : nk ∉ acc.map Prod.snd) : goodAcc (acc ++ [(sha, nk)]) := by
  obtain ⟨hpair, hsome⟩ := hg
  refine ⟨List.pairwise_append.2 ⟨hpair, List.pairwise_singleton _ _, ?_⟩, ?_⟩
  · intro a ha b hb
    rw [List.mem_singleton] at hb
    subst hb
    intro hcontra
    exact hnotin (List.mem_map.2 ⟨a, ha, hcontra⟩)
  · intro e he
    rcases List.mem_append.1 he with h | h
    · exact hsome e h
    · rw [List.mem_singleton] at h
      subst h
      simp [hp]

theorem resolveGo_stopped_good (ckver : String) :
    ∀ (feed : List Fetch) (acc out : List Entry),
      goodAcc acc → resolveGo ckver feed acc = .stopped out → goodAcc out
  | [], acc, out, hg, h => by simp [resolveGo] at h
  | .httpError code :: rest, acc, out, hg, h => by simp [resolveGo] at h
  | .urlError m :: rest, acc, out, hg, h => by simp [resolveGo] at h
  | .commit c :: rest, acc, out, hg, h => by
    rw [resolveGo] at h
    rcases hm : matchBumpMsg (firstLine c.message) with _ | nkver
    · rw [hm] at h
      exact resolveGo_stopped_good ckver rest acc out hg h
    · simp only [hm] at h
      rcases hn : parseVersion nkver with _ | nv
      · rcases hc : parseVersion ckver with _ | cv <;> simp [hn, hc] at h
      · rcases hc : parseVersion ckver with _ | cv
        · simp [hn, hc] at h
        · simp only [hn, hc] at h
          by_cases hle : verLe nv cv = true
          · rw [if_pos hle] at h
            cases h
            exact hg
          · rw [if_neg hle] at h
            by_cases hmem : nkver ∈ acc.map Prod.snd
            · rw [if_pos hmem] at h
              exact resolveGo_stopped_good ckver rest acc out hg h
            · rw [if_neg hmem] at h
              exact resolveGo_stopped_good ckver rest _ out
                (goodAcc_append hg hn hmem) h

theorem sortPending_eq_of_all {pending : List Entry}
    (hall : pending.all (fun e => (parseVersion e.2).isSome) = true) :
    sortPending pending = some (List.insertionSort pendingLe pending) := by
  simp [sortPending, hall]

theorem sortPending_some_of_good {pending : List Entry} (hg : goodAcc pending) :
    sortPending pending = some (List.insertionSort pendingLe pending) :=
  sortPending_eq_of_all (List.all_eq_true.2 fun e he => hg.2 e he)

/-- The sorted pending list keeps the pairwise string distinctness. -/
theorem insertionSort_pairwise_ne {pending : List Entry}
    (hpair : pending.Pairwise (fun a b => a.2 ≠ b.2)) :
    (List.insertionSort pendingLe pending).Pairwise (fun a b => a.2 ≠ b.2) :=
  (List.perm_insertionSort pendingLe pending).symm.pairwise hpair (fun h => Ne.symm h)

/-! ## The commit-message effect of the pipeline -/

/-- The message of a git commit command issued against the downstream
repository, if the effect is one. -/
def commitMsgOf : Effect → Option String
  | .run cmd _ =>
    match cmd with
    | ["git", "-C", "../modules/", "commit", "-am", m] => some m
    | _ => none
  | _ => none

/-- All downstream commit messages among a run's effects. -/
def commitMessagesIn (effs : List Effect) : List String :=
  effs.filterMap commitMsgOf

theorem commitMsgOf_not_git {cmd : List String} (r : Option String)
    (h : cmd.head? ≠ some "git") : commitMsgOf (.run cmd r) = none := by
  unfold commitMsgOf
  split
  · rename_i cmd2 rd heq
    injection heq with e1 e2
    subst e1
    split
    · exact absurd rfl h
    · rfl
  · rename_i hfalse
    exact absurd rfl (hfalse cmd r)

theorem commitMsgOf_rmtree : commitMsgOf .rmtreeLib = none := rfl

theorem commitMsgOf_uname : commitMsgOf .unameQuery = none := rfl

theorem commitMsgOf_gitAdd (r : Option String) :
    commitMsgOf (.run (gitCmd ++ ["add", "lib/"]) r) = none := rfl

theorem commitMsgOf_gitLog (r : Option String) :
    commitMsgOf (.run (gitCmd ++ ["log", "--oneline", "--decorate=on", "origin/master.."]) r) =
      none := rfl

theorem commitMsgOf_gks (d w : Option String) (sha : String) (r : Option String) :
    commitMsgOf (.run (gksArgs d w sha) r) = none :=
  commitMsgOf_not_git r (by simp [gksArgs])

theorem commitMsgOf_make (cfg : Config) (machine kver pver : String) (r : Option String) :
    commitMsgOf (.run (makeArgs cfg machine kver pver) r) = none :=
  commitMsgOf_not_git r (by simp [makeArgs])

theorem commitMsgOf_commit (m : String) (r : Option String) :
    commitMsgOf (.run (gitCmd ++ ["commit", "-am", m]) r) = some m := by
  rfl

theorem commitMsgOf_tag (t : String) (r : Option String) :
    commitMsgOf (.run (gitCmd ++ ["tag", "--force", t]) r) = none := by
  rfl

/-- The only commit command the per-version pipeline issues carries the
stripped marker-file content as its message; with a log file configured the
command (and hence the message) appears twice because call runs it twice. -/
theorem commitMessagesIn_pipelineSteps (cfg : Config) (machine marker sha kver : String) :
    commitMessagesIn (pipelineSteps cfg machine marker sha kver) =
      match cfg.logFile with
      | some _ => [stripTagContent marker, stripTagContent marker]
      | none => [stripTagContent marker] := by
  rcases hlf : cfg.logFile with _ | f <;>
    rcases htag : cfg.doNotTag with _ | _ <;>
      simp [pipelineSteps, commitMessagesIn, callEffects, hlf, htag,
        raspiSuffixes, raspi32Suffixes, raspi64Suffixes,
        List.filterMap_cons, List.filterMap_append,
        commitMsgOf_gks, commitMsgOf_make, commitMsgOf_commit, commitMsgOf_tag,
        commitMsgOf_rmtree, commitMsgOf_uname, commitMsgOf_gitAdd, commitMsgOf_gitLog]

/-- Structural content of line 236: the marker content decomposes as a block
of leading hashes, the commit message, and trailing whitespace, with the
message neither starting with a hash nor ending in whitespace. -/
theorem stripTagContent_decomposition (s : String) :
    ∃ k w, s.data = List.replicate k '#' ++ (stripTagContent s).data ++ w
      ∧ (∀ c ∈ w, pyWhitespace c = true)
      ∧ (∀ h, (stripTagContent s).data.head? = some h → (h == '#') = false)
      ∧ (∀ l, (stripTagContent s).data.getLast? = some l → pyWhitespace l = false) := by
  set t := s.data.dropWhile (fun c => c == '#') with ht
  have hsplit : s.data = s.data.takeWhile (fun c => c == '#') ++ t :=
    (List.takeWhile_append_dropWhile _ _).symm
  have hrep : s.data.takeWhile (fun c => c == '#') =
      List.replicate (s.data.takeWhile (fun c => c == '#')).length '#' := by
    apply List.eq_replicate_of_mem
    intro b hb
    have := List.mem_takeWhile_imp hb
    simpa using this
  have hcore : (stripTagContent s).data = (t.reverse.dropWhile pyWhitespace).reverse := by
    simp [stripTagContent, ht]
  have htsplit : t = (t.reverse.dropWhile pyWhitespace).reverse ++
      (t.reverse.takeWhile pyWhitespace).reverse := by
    have := List.takeWhile_append_dropWhile pyWhitespace t.reverse
    calc t = t.reverse.reverse := by rw [List.reverse_reverse]
    _ = (t.reverse.takeWhile pyWhitespace ++ t.reverse.dropWhile pyWhitespace).reverse := by
        rw [this]
    _ = _ := by rw [List.reverse_append]
  refine ⟨(s.data.takeWhile (fun c => c == '#')).length,
    (t.reverse.takeWhile pyWhitespace).reverse, ?_, ?_, ?_, ?_⟩
  · rw [hcore]
    have h1 : s.data = List.replicate (s.data.takeWhile (fun c => c == '#')).length '#' ++
        ((t.reverse.dropWhile pyWhitespace).reverse ++
          (t.reverse.takeWhile pyWhitespace).reverse) := by
      conv_lhs => rw [hsplit, hrep]
      rw [← htsplit]
    conv_lhs => rw [h1]
    rw [List.append_assoc]
  · intro c hc
    rw [List.mem_reverse] at hc
    exact List.mem_takeWhile_imp hc
  · intro h hh
    rw [hcore] at hh
    have hhead : t.head? = some h := by
      rcases hrev : (t.reverse.dropWhile pyWhitespace).reverse with _ | ⟨a, as⟩
      · rw [hrev] at hh
        simp at hh
      · rw [hrev] at hh
        have ha : a = h := by simpa using hh
        subst ha
        rw [htsplit, hrev]
        rfl
    have := List.head?_dropWhile_not (fun c => c == '#') s.data
    rw [← ht, hhead] at this
    exact this
  · intro l hl
    rw [hcore] at hl
    rw [List.getLast?_reverse] at hl
    have := List.head?_dropWhile_not pyWhitespace t.reverse
    rw [hl] at this
    exact this

theorem findBaseline_none {entries : List Entry}
    (h : ∀ e ∈ entries, matchTaudacMsg e.2 = none) : findBaseline entries = none := by
  induction entries with
  | nil => rfl
  | cons e rest ih =>
    simp only [findBaseline, h e (List.mem_cons_self e rest)]
    exact ih fun x hx => h x (List.mem_cons_of_mem e hx)

/-! ## Claims -/

def c1Feed : List Fetch :=
  [.commit ⟨"cafe0001dead", "kernel: Bump to 5.10.5"⟩,
   .commit ⟨"cafe0003dead", "kernel: Bump to 5.10.3"⟩,
   .commit ⟨"cafe0005dead", "kernel: Bump to 5.10.3"⟩,
   .commit ⟨"cafe0007dead", "kernel: Bump to 5.9.9"⟩]

/-- Claim C1 (confirmed): walking the upstream feed backward, a matched commit
whose version is numerically at or below the baseline stops the walk with the
pending list as built; a matched version already pending is skipped while the
walk continues; any other matched version is appended as (shortHash, version);
an unmatched commit is skipped without affecting state.  On baseline 5.10.0
and the feed announcing 5.10.5, 5.10.3, 5.10.3 (duplicate), 5.9.9 newest
first, the resolved pre-truncation list is [5.10.3, 5.10.5]. -/
theorem c1_pending_walk :
    (∀ (ck : String) (c : RawCommit) (rest : List Fetch) (acc : List Entry),
      matchBumpMsg (firstLine c.message) = none →
      resolveGo ck (.commit c :: rest) acc = resolveGo ck rest acc)
    ∧ (∀ (ck : String) (c : RawCommit) (rest : List Fetch) (acc : List Entry)
        (nk : String) (nv cv : List Nat),
      matchBumpMsg (firstLine c.message) = some nk →
      parseVersion nk = some nv → parseVersion ck = some cv →
      verLe nv cv = true →
      resolveGo ck (.commit c :: rest) acc = .stopped acc)
    ∧ (∀ (ck : String) (c : RawCommit) (rest : List Fetch) (acc : List Entry)
        (nk : String) (nv cv : List Nat),
      matchBumpMsg (firstLine c.message) = some nk →
      parseVersion nk = some nv → parseVersion ck = some cv →
      verLe nv cv = false → nk ∈ acc.map Prod.snd →
      resolveGo ck (.commit c :: rest) acc = resolveGo ck rest acc)
    ∧ (∀ (ck : String) (c : RawCommit) (rest : List Fetch) (acc : List Entry)
        (nk : String) (nv cv : List Nat),
      matchBumpMsg (firstLine c.message) = some nk →
      parseVersion nk = some nv → parseVersion ck = some cv →
      verLe nv cv = false → nk ∉ acc.map Prod.snd →
      resolveGo ck (.commit c :: rest) acc =
        resolveGo ck rest (acc ++ [(pyTake 8 c.sha, nk)]))
    ∧ resolveSorted "5.10.0" c1Feed =
        some [("cafe0003", "5.10.3"), ("cafe0001", "5.10.5")] := by
  refine ⟨?_, ?_, ?_, ?_, by decide⟩
  · intro ck c rest acc hm
    simp only [resolveGo, hm]
  · intro ck c rest acc nk nv cv hm hn hc hle
    simp only [resolveGo, hm, hn, hc]
    rw [if_pos hle]
  · intro ck c rest acc nk nv cv hm hn hc hle hmem
    simp only [resolveGo, hm, hn, hc, hle]
    simp [hmem]
  · intro ck c rest acc nk nv cv hm hn hc hle hmem
    simp only [resolveGo, hm, hn, hc, hle]
    simp [hmem]

/-- Closed instance of the stop rule of c1_pending_walk. -/
theorem c1_pending_walk_wit :
    resolveGo "5.10.0" [.commit ⟨"cafe0007dead", "kernel: Bump to 5.9.9"⟩]
      [("cafe0001", "5.10.5")] = .stopped [("cafe0001", "5.10.5")] :=
  c1_pending_walk.2.1 "5.10.0" ⟨"cafe0007dead", "kernel: Bump to 5.9.9"⟩ []
    [("cafe0001", "5.10.5")] "5.9.9" [5, 9, 9] [5, 10, 0]
    (by decide) (by decide) (by decide) (by decide)

def c2FeedA : List Fetch :=
  [.commit ⟨"cafe0011dead", "kernel: Bump to 5.10"⟩,
   .commit ⟨"cafe0013dead", "kernel: Bump to 5.9"⟩]

def c2FeedB : List Fetch :=
  [.commit ⟨"cafe0021dead", "kernel: Bump to 5.10"⟩,
   .commit ⟨"cafe0023dead", "kernel: Bump to 5.9"⟩,
   .commit ⟨"cafe0025dead", "kernel: Bump to 5.8"⟩]

/-- Claim C2 (confirmed): the resolver compares dotted-numeric versions by
standard dotted-numeric precedence - componentwise numeric comparison with
missing components read as zero - and not lexicographically.  5.10 is ranked
newer than 5.9 even though the strings order the other way: the stop-walking
comparison against baseline 5.9 walks past 5.10, and the final sort places
5.9 before 5.10. -/
theorem c2_numeric_precedence :
    (∀ a b : List Nat, verLt a b = padLt a b)
    ∧ (∀ a b : List Nat, verLe a b = !padLt b a)
    ∧ parseVersion "5.9" = some [5, 9]
    ∧ parseVersion "5.10" = some [5, 10]
    ∧ verLt [5, 9] [5, 10] = true
    ∧ charLexLt "5.10".data "5.9".data = true
    ∧ resolvePending "5.9" c2FeedA = .stopped [("cafe0011", "5.10")]
    ∧ resolveSorted "5.8" c2FeedB =
        some [("cafe0023", "5.9"), ("cafe0021", "5.10")] :=
  ⟨verLt_eq_padLt, verLe_eq_not_padLt, by decide, by decide, by decide, by decide,
    by decide, by decide⟩

def c3Feed : List Fetch :=
  [.commit ⟨"aaaa0001dead", "kernel: Bump to 5.10.0"⟩,
   .commit ⟨"aaaa0002dead", "kernel: Bump to 5.10"⟩,
   .commit ⟨"aaaa0003dead", "kernel: Bump to 5.9"⟩]

def c3WitFeed : List Fetch :=
  [.commit ⟨"aaaa0011dead", "kernel: Bump to 5.10.5"⟩,
   .commit ⟨"aaaa0013dead", "kernel: Bump to 5.10.3"⟩,
   .commit ⟨"aaaa0015dead", "kernel: Bump to 5.9.9"⟩]

/-- Claim C3 (counterexample): the duplicate test at line 180 compares version
strings, not parsed versions, so the numerically equal announcements 5.10.0
and 5.10 both survive resolution and reach the orchestrator together. -/
theorem c3_sorted_distinct_cex :
    resolveSorted "5.9" c3Feed = some [("aaaa0001", "5.10.0"), ("aaaa0002", "5.10")]
    ∧ verEq (pendingKey ("aaaa0001", "5.10.0")) (pendingKey ("aaaa0002", "5.10")) = true :=
  ⟨by decide, by decide⟩

/-- Claim C3 (amended): the pending list handed to the orchestrator has
pairwise distinct version strings (numerically equal but textually different
versions can coexist) and is sorted ascending by parsed version before any
pipeline execution. -/
theorem c3_sorted_distinct :
    ∀ (ck : String) (feed : List Fetch) (sortedPending : List Entry),
      resolveSorted ck feed = some sortedPending →
      sortedPending.Pairwise (fun a b => a.2 ≠ b.2) ∧ List.Sorted pendingLe sortedPending := by
  intro ck feed sortedPending h
  unfold resolveSorted at h
  rcases hres : resolvePending ck feed with pending | g | m | p | _ <;> rw [hres] at h <;>
    try simp at h
  have hg : goodAcc pending :=
    resolveGo_stopped_good ck feed [] pending goodAcc_nil hres
  have h2 := sortPending_some_of_good hg
  rw [h] at h2
  injection h2 with h3
  subst h3
  exact ⟨insertionSort_pairwise_ne hg.1, List.sorted_insertionSort pendingLe pending⟩

/-- Closed instance of c3_sorted_distinct on a concrete resolution run. -/
theorem c3_sorted_distinct_wit :
    ([("aaaa0013", "5.10.3"), ("aaaa0011", "5.10.5")] : List Entry).Pairwise
      (fun a b => a.2 ≠ b.2)
    ∧ List.Sorted pendingLe [("aaaa0013", "5.10.3"), ("aaaa0011", "5.10.5")] :=
  c3_sorted_distinct "5.10.0" c3WitFeed
    [("aaaa0013", "5.10.3"), ("aaaa0011", "5.10.5")] (by decide)

def c4Feed : List Fetch :=
  [.commit ⟨"bbbb0001dead", "kernel: Bump to 5.10.5"⟩,
   .commit ⟨"bbbb0003dead", "kernel: Bump to 5.10.3"⟩,
   .commit ⟨"bbbb0005dead", "kernel: Bump to 5.9.9"⟩]

/-- Claim C4 (counterexample): a supplied maximum-versions count of 0 is falsy
in Python, so line 197 skips the truncation and the whole pending list is
kept instead of the oldest zero entries. -/
theorem c4_truncation_cex :
    truncatePending (some 0) [("bbbb0011", "5.10.3"), ("bbbb0013", "5.10.5")] =
      [("bbbb0011", "5.10.3"), ("bbbb0013", "5.10.5")]
    ∧ truncatePending (some 0) [("bbbb0011", "5.10.3"), ("bbbb0013", "5.10.5")] ≠
      List.take 0 [("bbbb0011", "5.10.3"), ("bbbb0013", "5.10.5")] :=
  ⟨rfl, by decide⟩

/-- Claim C4 (amended): a positive maximum-versions count N keeps exactly the
first N entries of the ascending-sorted pending list (all of them when fewer
than N remain), and the cap is applied after the sort: capping the walk that
discovers 5.10.5 before 5.10.3 at one build yields 5.10.3, the oldest. -/
theorem c4_truncation :
    (∀ (n : Nat) (xs : List Entry), 0 < n →
      truncatePending (some (n : Int)) xs = xs.take n)
    ∧ resolveSortTrunc "5.10.0" c4Feed (some 1) = some [("bbbb0003", "5.10.3")] := by
  constructor
  · intro n xs hn
    have hne : ((n : Int)) ≠ 0 := by
      simpa using Nat.pos_iff_ne_zero.1 hn
    simp [truncatePending, hne, pySliceTo, Int.natCast_nonneg]
  · decide

/-- Closed instance of the positive-cap rule of c4_truncation. -/
theorem c4_truncation_wit :
    truncatePending (some 1) [("bbbb0011", "5.10.3"), ("bbbb0013", "5.10.5")] =
      List.take 1 [("bbbb0011", "5.10.3"), ("bbbb0013", "5.10.5")] :=
  c4_truncation.1 1 [("bbbb0011", "5.10.3"), ("bbbb0013", "5.10.5")] (by decide)

/-- Claim C5 (counterexample): with no override and a downstream window with
no taudac match, main prints a diagnostic and returns: the process exits
zero with no notification, not non-zero after notification as claimed. -/
theorem c5_no_baseline_cex :
    mainRun {} (.ok [⟨"beef0001dead", "update something unrelated"⟩]) [] [] "x86_64" "" =
      (.noBaseline, [])
    ∧ exitsCleanly .noBaseline = true :=
  ⟨by decide, rfl⟩

/-- Claim C5 (amended): if no override is supplied and no commit of the
fetched downstream window matches the taudac pattern, baseline detection
fails and the run ends at once - no resolution, no pipeline step, no
effect - but with a console message and a clean zero exit, and without any
notification. -/
theorem c5_no_baseline :
    ∀ (cfg : Config) (ds : ApiResponse) (up : List Fetch) (inputs : List String)
      (machine marker : String) (entries : List Entry),
      cfg.currentVersion = none →
      ghLog ds = .messages entries →
      (∀ e ∈ entries, matchTaudacMsg e.2 = none) →
      mainRun cfg ds up inputs machine marker = (.noBaseline, [])
      ∧ exitsCleanly .noBaseline = true := by
  intro cfg ds up inputs machine marker entries hcv hlog hnone
  refine ⟨?_, rfl⟩
  simp [mainRun, baselinePhase, hcv, hlog, findBaseline_none hnone]

/-- Closed instance of c5_no_baseline. -/
theorem c5_no_baseline_wit :
    mainRun {} (.ok [⟨"beef0003dead", "release notes"⟩, ⟨"beef0005dead", "cleanup"⟩])
      [] ["n"] "armv7l" "#x" = (.noBaseline, [])
    ∧ exitsCleanly .noBaseline = true :=
  c5_no_baseline {} (.ok [⟨"beef0003dead", "release notes"⟩, ⟨"beef0005dead", "cleanup"⟩])
    [] ["n"] "armv7l" "#x" [("beef0003", "release notes"), ("beef0005", "cleanup")]
    rfl (by decide) (by decide)

/-- Claim C6 (counterexample): a non-403 HTTP failure of the commit-listing
endpoint does not propagate to the caller: log terminates the process via
sys.exit(1), silently (no guidance). -/
theorem c6_fetch_failure_cex :
    ghLog (.httpError 500) = .exitProcess false
    ∧ propagatesToCaller (ghLog (.httpError 500)) = false :=
  ⟨rfl, rfl⟩

/-- Claim C6 (amended): a 403 from the commit-listing endpoint makes log print
the authentication guidance and terminate the run; every other HTTP error
also terminates the process, silently; only a non-HTTP URLError propagates to
the caller.  A 403 met during the walk ends the run immediately with no
further resolution step and no effect, regardless of the pending versions
already identified. -/
theorem c6_fetch_failure :
    ghLog (.httpError 403) = .exitProcess true
    ∧ (∀ code : Nat, code ≠ 403 → ghLog (.httpError code) = .exitProcess false)
    ∧ (∀ m : String, ghLog (.urlError m) = .raiseToCaller m)
    ∧ (∀ (ck : String) (rest : List Fetch) (acc : List Entry),
        resolveGo ck (.httpError 403 :: rest) acc = .fetchExit true)
    ∧ (∀ (cfg : Config) (ds : ApiResponse) (feed : List Fetch) (inputs : List String)
        (machine marker ck : String) (g : Bool),
        baselinePhase cfg ds = .inl ck →
        resolvePending ck feed = .fetchExit g →
        mainRun cfg ds feed inputs machine marker = (.walkFetchExit g, [])
        ∧ exitsCleanly (.walkFetchExit g) = false) := by
  refine ⟨rfl, ?_, fun m => rfl, fun ck rest acc => rfl, ?_⟩
  · intro code hcode
    have hb : (code == 403) = false := by simpa using hcode
    simp [ghLog, hb]
  · intro cfg ds feed inputs machine marker ck g hb hres
    refine ⟨?_, rfl⟩
    simp [mainRun, hb, hres]

/-- Closed instance of c6_fetch_failure: a 403 one step after a pending
version was already found still kills the run with no effects. -/
theorem c6_fetch_failure_wit :
    mainRun {currentVersion := some "5.10.0"} (.ok [])
      [.commit ⟨"cafe0031dead", "kernel: Bump to 5.10.5"⟩, .httpError 403]
      [] "x86_64" "" = (.walkFetchExit true, [])
    ∧ exitsCleanly (.walkFetchExit true) = false :=
  c6_fetch_failure.2.2.2.2 {currentVersion := some "5.10.0"} (.ok [])
    [.commit ⟨"cafe0031dead", "kernel: Bump to 5.10.5"⟩, .httpError 403]
    [] "x86_64" "" "5.10.0" true rfl (by decide)

/-- Claim C7 (counterexample): str.lstrip removes every leading comment
character, not a single one: marker content ##x produces commit message x
where the claim requires #x. -/
theorem c7_commit_message_cex :
    commitMessagesIn (pipelineSteps {} "aarch64" "##x" "cafe0009" "5.10.3") = ["x"]
    ∧ ("x" : String) ≠ "#x" :=
  ⟨by decide, by decide⟩

/-- Claim C7 (amended): every downstream commit the pipeline records uses as
its message the marker content with all leading comment characters and all
trailing whitespace stripped: the marker decomposes into a hash block, the
message, and trailing whitespace, with the message neither starting with a
hash nor ending in whitespace. -/
theorem c7_commit_message :
    ∀ (cfg : Config) (machine marker sha kver m : String),
      m ∈ commitMessagesIn (pipelineSteps cfg machine marker sha kver) →
      m = stripTagContent marker
      ∧ ∃ k w, marker.data = List.replicate k '#' ++ m.data ++ w
        ∧ (∀ c ∈ w, pyWhitespace c = true)
        ∧ (∀ h, m.data.head? = some h → (h == '#') = false)
        ∧ (∀ l, m.data.getLast? = some l → pyWhitespace l = false) := by
  intro cfg machine marker sha kver m hm
  have hmm : m = stripTagContent marker := by
    rw [commitMessagesIn_pipelineSteps] at hm
    rcases hlf : cfg.logFile with _ | f <;> rw [hlf] at hm <;> simpa using hm
  subst hmm
  exact ⟨rfl, stripTagContent_decomposition marker⟩

/-- Closed instance of c7_commit_message. -/
theorem c7_commit_message_wit :
    ("msg" : String) = stripTagContent "#msg "
    ∧ ∃ k w, ("#msg " : String).data = List.replicate k '#' ++ ("msg" : String).data ++ w
      ∧ (∀ c ∈ w, pyWhitespace c = true)
      ∧ (∀ h, ("msg" : String).data.head? = some h → (h == '#') = false)
      ∧ (∀ l, ("msg" : String).data.getLast? = some l → pyWhitespace l = false) :=
  c7_commit_message {} "aarch64" "#msg " "cafe0021" "5.10.4" "msg" (by decide)

/-- Claim C8 (confirmed): with a nonempty resolved pending list the run asks
one upfront confirmation, and declining ends the run cleanly with an empty
effect list: no fast-forward pull, no source fetch, no clean, no build, no
commit, no tag, no push happens after the decline.  query_yes_no itself maps
a no answer to False, re-prompts on other input, and auto-affirms under
assume-yes. -/
theorem c8_decline_clean :
    (∀ (cfg : Config) (ds : ApiResponse) (feed : List Fetch) (inputs rest : List String)
      (machine marker ck : String) (pending : List Entry),
      baselinePhase cfg ds = .inl ck →
      resolvePending ck feed = .stopped pending →
      pending ≠ [] →
      queryYesNo cfg.assumeYes inputs = some (false, rest) →
      mainRun cfg ds feed inputs machine marker = (.declined, [])
      ∧ exitsCleanly .declined = true)
    ∧ queryYesNo false ["n"] = some (false, [])
    ∧ queryYesNo false ["maybe", "NO"] = some (false, [])
    ∧ (∀ inputs : List String, queryYesNo true inputs = some (true, inputs)) := by
  refine ⟨?_, by decide, by decide, fun _ => rfl⟩
  intro cfg ds feed inputs rest machine marker ck pending hb hres hne hq
  refine ⟨?_, rfl⟩
  have hemp : pending.isEmpty = false := by
    rcases pending with _ | ⟨p, ps⟩
    · exact absurd rfl hne
    · rfl
  simp [mainRun, hb, hres, hemp, hq]

/-- Closed instance of c8_decline_clean. -/
theorem c8_decline_clean_wit :
    mainRun {} (.ok [⟨"beef0011dead", "taudac-modules for 5.10.0"⟩])
      [.commit ⟨"cafe0041dead", "kernel: Bump to 5.10.5"⟩,
       .commit ⟨"cafe0043dead", "kernel: Bump to 5.9.9"⟩]
      ["n"] "x86_64" "# tag" = (.declined, [])
    ∧ exitsCleanly .declined = true :=
  c8_decline_clean.1 {} (.ok [⟨"beef0011dead", "taudac-modules for 5.10.0"⟩])
    [.commit ⟨"cafe0041dead", "kernel: Bump to 5.10.5"⟩,
     .commit ⟨"cafe0043dead", "kernel: Bump to 5.9.9"⟩]
    ["n"] [] "x86_64" "# tag" "5.10.0" [("cafe0041", "5.10.5")]
    (by decide) (by decide) (by decide) (by decide)

def c9WitFeed : List Fetch := [.commit ⟨"dddd0001dead", "kernel: Bump to 5.10.5"⟩]

/-- Claim C9 (counterexample): when the walk never reaches an announced
version at or below the baseline it runs past the end of history, and the
next fetch kills the process (error page or empty commit array), so the run
does not complete cleanly as up to date. -/
theorem c9_up_to_date_cex :
    mainRun {currentVersion := some "5.10.0"} (.ok [])
      [.commit ⟨"dddd0003dead", "unrelated work"⟩] [] "x86_64" "" = (.walkDied, [])
    ∧ exitsCleanly .walkDied = false :=
  ⟨by decide, rfl⟩

/-- Claim C9 (amended): when the walk reaches its stop condition with nothing
pending - in particular when the newest announced version is numerically at
or below the baseline, including equality - the resolver returns an empty
list, the run reports up to date, performs no pipeline effect, and exits
cleanly. -/
theorem c9_up_to_date :
    (∀ (cfg : Config) (ds : ApiResponse) (feed : List Fetch) (inputs : List String)
      (machine marker ck : String),
      baselinePhase cfg ds = .inl ck →
      resolvePending ck feed = .stopped [] →
      mainRun cfg ds feed inputs machine marker = (.upToDate, [])
      ∧ exitsCleanly .upToDate = true)
    ∧ (∀ (ck : String) (c : RawCommit) (rest : List Fetch) (nk : String) (nv cv : List Nat),
      matchBumpMsg (firstLine c.message) = some nk →
      parseVersion nk = some nv → parseVersion ck = some cv →
      verLe nv cv = true →
      resolvePending ck (.commit c :: rest) = .stopped []) := by
  constructor
  · intro cfg ds feed inputs machine marker ck hb hres
    refine ⟨?_, rfl⟩
    simp [mainRun, hb, hres]
  · intro ck c rest nk nv cv hm hn hc hle
    unfold resolvePending
    simp only [resolveGo, hm, hn, hc]
    rw [if_pos hle]

/-- Closed instance of c9_up_to_date: baseline equal to the newest announced
version yields a clean up-to-date run with no effects. -/
theorem c9_up_to_date_wit :
    mainRun {currentVersion := some "5.10.5"} (.ok []) c9WitFeed [] "x86_64" "" =
      (.upToDate, [])
    ∧ exitsCleanly .upToDate = true :=
  c9_up_to_date.1 {currentVersion := some "5.10.5"} (.ok []) c9WitFeed [] "x86_64" ""
    "5.10.5" rfl (by decide)

/-- Claim C10 (confirmed): every command issued through the call helper runs
twice when a log file is configured - first with stdout and stderr redirected
to the log file, then again without redirection - and exactly once when no
log file is configured. -/
theorem c10_call_logging :
    (∀ (f : String) (cmd : List String),
      callEffects (some f) cmd = [.run cmd (some f), .run cmd none])
    ∧ ∀ cmd : List String, callEffects none cmd = [.run cmd none] :=
  ⟨fun _ _ => rfl, fun _ => rfl⟩

end BuildModules
